import Mathlib

/-!
Verification of the MULEX fraud-detection engine (`backend/detector.py`).

The detector pipeline is shallowly embedded over the parsed dataframe:
a `Row` models one transaction row after `_parse_csv` (column mapping,
type coercion, self-loop removal, timestamp normalisation).  Account ids
are a generic type with decidable equality (standing for Python strings);
amounts and timestamps are exact rationals, with timestamps measured in
hours so that the hour-based thresholds of the source (72 h, 24 h, 48 h,
168 h) translate directly.

`_detect_cycles` is wall-clock- and count-bounded in the source, so the
recorded cycle list is taken as a parameter by everything downstream of
it (exactly as `self.cycles` is in the Python class).

The aggregated `networkx.DiGraph` of `_build_graph` appears through its
observable aggregates: `edgePairs` (one directed edge per distinct
(sender, receiver) pair), `graphNodes`, the degree maps of `_precompute`
(`inDeg` / `outDeg` count distinct predecessors / successors) and the
amount totals (`inAmt` / `outAmt`, summed over raw rows).  Sets of
account ids are modelled as lists, with membership the only operation
the source performs on them; iteration orders that Python leaves to hash
sets are fixed arbitrarily and are never relied upon.
-/

section DetectorDefs

variable {α : Type} [DecidableEq α]

/-- One parsed transaction row of `self.df` (after `_parse_csv`):
trimmed sender / receiver ids, numeric amount, normalised timestamp
(in hours). `transaction_id` is omitted: no claim mentions it. -/
structure Row (α : Type) where
  sender : α
  receiver : α
  amount : ℚ
  ts : ℚ
  deriving DecidableEq

/-- Aggregated edge set of `_build_graph`: one directed edge per distinct
(sender, receiver) pair of the dataframe (`groupby(["sender_id", "receiver_id"])`). -/
def edgePairs (df : List (Row α)) : List (α × α) :=
  (df.map (fun r => (r.sender, r.receiver))).dedup

/-- Node set of the graph: every account appearing as sender or receiver. -/
def graphNodes (df : List (Row α)) : List α :=
  (df.map Row.sender ++ df.map Row.receiver).dedup

/-- `self._in_deg`: `graph.in_degree()`, the number of distinct predecessors. -/
def inDeg (df : List (Row α)) (n : α) : ℕ :=
  ((edgePairs df).filter (fun p => decide (p.2 = n))).length

/-- `self._out_deg`: `graph.out_degree()`, the number of distinct successors. -/
def outDeg (df : List (Row α)) (n : α) : ℕ :=
  ((edgePairs df).filter (fun p => decide (p.1 = n))).length

/-- `self._in_amt`: total inbound amount, `df.groupby("receiver_id")["amount"].sum()`
with missing keys defaulting to `0.0` (`.get(node, 0.0)`). -/
def inAmt (df : List (Row α)) (n : α) : ℚ :=
  ((df.filter (fun r => decide (r.receiver = n))).map Row.amount).sum

/-- `self._out_amt`: total outbound amount per sender. -/
def outAmt (df : List (Row α)) (n : α) : ℚ :=
  ((df.filter (fun r => decide (r.sender = n))).map Row.amount).sum

/-- Raw inbound rows of a node, `self.df[self.df['receiver_id'] == node]`. -/
def inboundRows (df : List (Row α)) (n : α) : List (Row α) :=
  df.filter (fun r => decide (r.receiver = n))

/-- Number of distinct senders into `n` over the raw rows
(`set(... ['sender_id'].unique())`). -/
def uniqueSenders (df : List (Row α)) (n : α) : ℕ :=
  ((inboundRows df n).map Row.sender).dedup.length

/-- `_detect_fan`: fan-in set, `{n : in_degree(n) >= FAN_THRESHOLD = 10}`. -/
def fanInOf (df : List (Row α)) : List α :=
  (graphNodes df).filter (fun n => decide (10 ≤ inDeg df n))

/-- `_detect_fan`: fan-out set, `{n : out_degree(n) >= FAN_THRESHOLD = 10}`. -/
def fanOutOf (df : List (Row α)) : List α :=
  (graphNodes df).filter (fun n => decide (10 ≤ outDeg df n))

/-- Distinct successors of a node, in first-appearance order of the edge list.
(`networkx` keeps successors in edge-insertion order, i.e. the groupby key
order; only which node is *first* reached at depth ≥ 3 depends on this
order, and no claim depends on that choice.) -/
def succsOf (df : List (Row α)) (n : α) : List α :=
  ((edgePairs df).filter (fun p => decide (p.1 = n))).map Prod.snd

/-- The BFS loop body of `_detect_chains` for one start node: pops
`(node, depth)` from the front of the queue, flags the first node popped
at depth ≥ MIN_CHAIN_LEN = 3 (returning it as witness), gives up past the
hard depth cap, and otherwise enqueues unvisited successors at depth + 1.
Each node is pushed at most once (it is marked visited when pushed), so a
fuel of `(graphNodes df).length + 1` is enough for the loop to run to
completion; the fuel is never what terminates the search. -/
def chainStep (df : List (Row α)) : ℕ → List (α × ℕ) → List α → Option α
  | 0, _, _ => none
  | _ + 1, [], _ => none
  | fuel + 1, (node, depth) :: rest, visited =>
      if 3 ≤ depth then some node
      else if 6 < depth then none
      else
        let ns := (succsOf df node).filter (fun s => decide (s ∉ visited))
        chainStep df fuel (rest ++ ns.map (fun s => (s, depth + 1))) (visited ++ ns)

/-- `_detect_chains`: for each start node, BFS from `(start, 1)`; on the
first witness popped at depth ≥ 3, both the start and the witness join
the chain set. -/
def chainsOf (df : List (Row α)) : List α :=
  (graphNodes df).flatMap (fun start =>
    match chainStep df ((graphNodes df).length + 1) [(start, 1)] [start] with
    | some w => [start, w]
    | none => [])

/-- `_detect_passthrough`: nodes with inbound amount > 0 and
`total_out / total_in > PASSTHROUGH_RATIO = 0.98`. -/
def passthroughOf (df : List (Row α)) : List α :=
  (graphNodes df).filter (fun n =>
    decide (0 < inAmt df n) && decide (98 / 100 < outAmt df n / inAmt df n))

/-- `_detect_round_amounts`' per-amount test: positive and either in
ROUND_AMOUNTS or a multiple of 1000 (`amt % 1000 == 0` on a real number
means: an integer multiple of 1000). -/
def isRoundAmount (a : ℚ) : Bool :=
  decide (0 < a) &&
    (decide (a ∈ ([1000, 2000, 5000, 10000, 20000, 25000, 50000, 100000] : List ℚ)) ||
      (decide (a.den = 1) && decide (a.num % 1000 = 0)))

/-- `_detect_round_amounts`: accounts with at least one transaction where
`round_count / len(txns) >= ROUND_RATIO_THRESHOLD = 0.5`, over all raw
rows in which the account is sender or receiver. -/
def roundAmountOf (df : List (Row α)) : List α :=
  (graphNodes df).filter (fun acct =>
    let txns := df.filter (fun r => decide (r.sender = acct) || decide (r.receiver = acct))
    !txns.isEmpty &&
      decide ((1 : ℚ) / 2 ≤ ((txns.filter (fun r => isRoundAmount r.amount)).length : ℚ) / (txns.length : ℚ)))

/-- `_detect_amount_anomaly`: with fewer than 5 rows or zero standard
deviation, no flags; otherwise both endpoints of every row with
`amount > mean + 3 * std`.  The pandas sample variance (ddof = 1) is kept
as an exact rational; `std == 0` iff the variance is 0, and
`amount > mean + 3 * sqrt(var)` iff `amount > mean` and
`(amount - mean)^2 > 9 * var`, which avoids the irrational square root. -/
def anomalyOf (df : List (Row α)) : List α :=
  if df.length < 5 then []
  else
    let amounts := df.map Row.amount
    let mean : ℚ := amounts.sum / (df.length : ℚ)
    let var : ℚ := ((amounts.map (fun a => (a - mean) ^ 2)).sum) / ((df.length : ℚ) - 1)
    if var = 0 then []
    else
      let outliers := df.filter (fun r =>
        decide (mean < r.amount) && decide (9 * var < (r.amount - mean) ^ 2))
      (outliers.map Row.sender).dedup ++ (outliers.map Row.receiver).dedup

/-- The inner `while ts_list[right] - ts_list[left] > window: left += 1`
of the sliding-window scans, driven by explicit fuel.  Called with
`fuel = r - l` the fuel runs out exactly when `left` reaches `right`,
where the loop condition is `0 > window` and (for the nonnegative windows
of the source) can never hold, so the bounded loop and the Python loop
agree. -/
def slideGo (ts : List ℚ) (w : ℚ) (r : ℕ) : ℕ → ℕ → ℕ
  | 0, l => l
  | fuel + 1, l => if w < ts.getD r 0 - ts.getD l 0 then slideGo ts w r fuel (l + 1) else l

/-- Final `left` pointer for window end `r`, starting from `l`. -/
def slideLeft (ts : List ℚ) (w : ℚ) (r l : ℕ) : ℕ :=
  slideGo ts w r (r - l) l

/-- The sliding-window loop of `_detect_temporal` (`for right in range(len)`):
flags once `right - left + 1 >= TEMPORAL_TX_MIN = 10`.  Fuel counts the
remaining values of `right`, so `fuel = len(ts)` at `right = 0` runs the
full Python loop. -/
def tempGoF (ts : List ℚ) (w : ℚ) : ℕ → ℕ → ℕ → Bool
  | 0, _, _ => false
  | fuel + 1, l, r =>
      if r < ts.length then
        if 10 ≤ r - slideLeft ts w r l + 1 then true
        else tempGoF ts w fuel (slideLeft ts w r l) (r + 1)
      else false

/-- All timestamps of rows in which the account is sender or receiver
(with multiplicity), ascending — `sender_ts + receiver_ts` then `.sort()`.
On rationals every correct sort returns the same list, so the choice of
insertion sort is immaterial. -/
def tsOf (df : List (Row α)) (a : α) : List ℚ :=
  List.insertionSort (· ≤ ·)
    (((df.filter (fun r => decide (r.sender = a))).map Row.ts) ++
      ((df.filter (fun r => decide (r.receiver = a))).map Row.ts))

/-- `_detect_temporal`, run only when `has_ts` (`_detect_all`): accounts
with ≥ TEMPORAL_TX_MIN = 10 timestamps for which the 72-hour sliding
window ever holds ≥ 10 of them. -/
def detectTemporal (hasTs : Bool) (df : List (Row α)) : List α :=
  if hasTs then
    (graphNodes df).filter (fun a =>
      decide (10 ≤ (tsOf df a).length) && tempGoF (tsOf df a) 72 (tsOf df a).length 0 0)
  else []

/-- `self.df["timestamp"].max()` — only read by `_detect_rapid_dormancy`
for accounts that have rows, hence on a nonempty dataframe (the 0 default
is never reached there). -/
def maxTs (df : List (Row α)) : ℚ :=
  ((df.map Row.ts).max?).getD 0

/-- Silence test of `_detect_rapid_dormancy` for burst start `i`
(`burst_end = i + 4`): if no strictly later timestamp exists the account
is dormant iff `global_max - ts[burst_end] >= 168 h`, otherwise iff the
first later timestamp is ≥ 168 h away. -/
def dormSilence (ts : List ℚ) (gmax : ℚ) (i : ℕ) : Bool :=
  match (ts.drop (i + 4 + 1)).filter (fun t => decide (ts.getD (i + 4) 0 < t)) with
  | [] => decide (168 ≤ gmax - ts.getD (i + 4) 0)
  | t :: _ => decide (168 ≤ t - ts.getD (i + 4) 0)

/-- `_detect_rapid_dormancy`, run only when `has_ts`: accounts with ≥
DORMANCY_MIN_TXN = 5 timestamps and some index `i` whose 5-element burst
fits in 48 h and is followed by ≥ 168 h of silence. -/
def dormancyOf (hasTs : Bool) (df : List (Row α)) : List α :=
  if hasTs then
    (graphNodes df).filter (fun a =>
      let ts := tsOf df a
      decide (5 ≤ ts.length) &&
        (List.range (ts.length - 4)).any (fun i =>
          decide (ts.getD (i + 4) 0 - ts.getD i 0 ≤ 48) && dormSilence ts (maxTs df) i))
  else []

/-- Decidability of the row ordering by timestamp used by `sortedInbound`. -/
instance rowTsLeDecidable : DecidableRel (fun (a b : Row α) => a.ts ≤ b.ts) :=
  fun a b => inferInstanceAs (Decidable (a.ts ≤ b.ts))

instance rowTsLeTotal : IsTotal (Row α) (fun a b => a.ts ≤ b.ts) :=
  ⟨fun a b => le_total a.ts b.ts⟩

instance rowTsLeTrans : IsTrans (Row α) (fun a b => a.ts ≤ b.ts) :=
  ⟨fun _ _ _ h h2 => le_trans h h2⟩

/-- Rows sorted by timestamp — `pandas.sort_values('timestamp')`.
The source's quicksort leaves the order of equal timestamps unspecified;
insertion sort fixes one (stable) choice, and nothing proved below
depends on the tie order. -/
def sortedInbound (df : List (Row α)) (n : α) : List (Row α) :=
  List.insertionSort (fun a b => a.ts ≤ b.ts) (inboundRows df n)

/-- The sliding-window loop of the timestamped branch of `_detect_smurfing`:
flags once the 24-hour window `[left, right]` holds ≥ SMURF_MIN_SOURCES = 5
distinct senders (`set(sender_list[left:right + 1])`). -/
def smurfGoF (ts : List ℚ) (senders : List α) : ℕ → ℕ → ℕ → Bool
  | 0, _, _ => false
  | fuel + 1, l, r =>
      if r < ts.length then
        if 5 ≤ (((senders.drop (slideLeft ts 24 r l)).take
            (r + 1 - slideLeft ts 24 r l)).dedup).length then true
        else smurfGoF ts senders fuel (slideLeft ts 24 r l) (r + 1)
      else false

/-- Window scan of one candidate hub over its time-sorted inbound rows. -/
def smurfFlag (df : List (Row α)) (n : α) : Bool :=
  smurfGoF ((sortedInbound df n).map Row.ts) ((sortedInbound df n).map Row.sender)
    ((sortedInbound df n).map Row.ts).length 0 0

/-- `_detect_smurfing` hub set.  Both branches gate on
`in_degree >= SMURF_MIN_SOURCES = 5` and `out_degree <= 1`; without
timestamps a node is a hub iff it has ≥ 5 distinct senders overall, with
timestamps iff it has ≥ 5 inbound rows and the 24-hour window ever holds
≥ 5 distinct senders. -/
def smurfHubs (hasTs : Bool) (df : List (Row α)) : List α :=
  if hasTs then
    (graphNodes df).filter (fun n =>
      decide (5 ≤ inDeg df n) && decide (outDeg df n ≤ 1) &&
        decide (5 ≤ (inboundRows df n).length) && smurfFlag df n)
  else
    (graphNodes df).filter (fun n =>
      decide (5 ≤ inDeg df n) && decide (outDeg df n ≤ 1) &&
        decide (5 ≤ uniqueSenders df n))

/-- `_detect_smurfing` source set: every distinct sender into any hub
(all inbound senders of the hub, not only those inside the witnessing
window). -/
def smurfSources (hasTs : Bool) (df : List (Row α)) : List α :=
  ((smurfHubs hasTs df).map (fun h => ((inboundRows df h).map Row.sender).dedup)).flatten

/-- Members of any recorded cycle (`cycle_members` / `cycle_set`). -/
def cycleMembersOf (cycles : List (List α)) : List α :=
  cycles.flatten

/-- `_detect_merchants`: in-degree ≥ 5; not a smurf hub; in/out degree
ratio ≥ 3 with out-degree 0 passing (`ratio = inf`); pass-through ratio
`total_out / total_in` (0 when `total_in <= 0`) below MERCHANT_PT_CAP = 0.5;
not in any recorded cycle. -/
def merchantsOf (hasTs : Bool) (df : List (Row α)) (cycles : List (List α)) : List α :=
  (graphNodes df).filter (fun n =>
    decide (5 ≤ inDeg df n) &&
      !decide (n ∈ smurfHubs hasTs df) &&
      (decide (outDeg df n = 0) || decide ((3 : ℚ) ≤ (inDeg df n : ℚ) / (outDeg df n : ℚ))) &&
      decide ((if 0 < inAmt df n then outAmt df n / inAmt df n else 0) < 1 / 2) &&
      !decide (n ∈ cycleMembersOf cycles))

/-- The additive part of `_score` for a non-merchant node: CYCLE 50,
PASSTHROUGH 30, AMOUNT_ANOMALY 20, TEMPORAL 20, ROUND_AMOUNT 15,
DORMANCY 15, FAN_IO 10 + 10, CHAIN 15, SMURF 40 for the hub set and 40
again for the source set. -/
def rawScore (hasTs : Bool) (df : List (Row α)) (cycles : List (List α)) (n : α) : ℕ :=
  (if n ∈ cycleMembersOf cycles then 50 else 0) +
    (if n ∈ passthroughOf df then 30 else 0) +
    (if n ∈ anomalyOf df then 20 else 0) +
    (if n ∈ detectTemporal hasTs df then 20 else 0) +
    (if n ∈ roundAmountOf df then 15 else 0) +
    (if n ∈ dormancyOf hasTs df then 15 else 0) +
    (if n ∈ fanInOf df then 10 else 0) +
    (if n ∈ fanOutOf df then 10 else 0) +
    (if n ∈ chainsOf df then 15 else 0) +
    (if n ∈ smurfHubs hasTs df then 40 else 0) +
    (if n ∈ smurfSources hasTs df then 40 else 0)

/-- `_score`: merchants get 0, everyone else `min(s, MAX_SCORE = 100)`. -/
def scoreOf (hasTs : Bool) (df : List (Row α)) (cycles : List (List α)) (n : α) : ℕ :=
  if n ∈ merchantsOf hasTs df cycles then 0 else min (rawScore hasTs df cycles n) 100

/-- Cycle-length labels of a node, one per containing cycle, deduplicated
(`p = list(set(p))`; the Python set iteration order is unspecified, and
dedup keeps first occurrences — no claim depends on this order). -/
def cycleLabels (cycles : List (List α)) (n : α) : List String :=
  ((cycles.filter (fun c => decide (n ∈ c))).map
    (fun c => "cycle_length_" ++ toString c.length)).dedup

/-- `_score` pattern labels, in the append order of the source. -/
def patternsOf (hasTs : Bool) (df : List (Row α)) (cycles : List (List α)) (n : α) :
    List String :=
  if n ∈ merchantsOf hasTs df cycles then ["legitimate_merchant"]
  else
    cycleLabels cycles n ++
      (if n ∈ passthroughOf df then ["passthrough_shell"] else []) ++
      (if n ∈ anomalyOf df then ["amount_anomaly"] else []) ++
      (if n ∈ detectTemporal hasTs df then ["temporal_clustering"] else []) ++
      (if n ∈ roundAmountOf df then ["round_amount_structuring"] else []) ++
      (if n ∈ dormancyOf hasTs df then ["rapid_dormancy"] else []) ++
      (if n ∈ fanInOf df then ["fan_in"] else []) ++
      (if n ∈ fanOutOf df then ["fan_out"] else []) ++
      (if n ∈ chainsOf df then ["layered_chain"] else []) ++
      (if n ∈ smurfHubs hasTs df then ["smurfing_hub"] else []) ++
      (if n ∈ smurfSources hasTs df then ["smurfing_source"] else [])

/-- Membership in at least one detector set — the eleven sets `_score`
adds points for (cycle membership, passthrough, anomaly, temporal,
round-amount, dormancy, fan-in, fan-out, chains, smurf hubs, smurf
sources). -/
def matchesAnyDetector (hasTs : Bool) (df : List (Row α)) (cycles : List (List α))
    (n : α) : Prop :=
  n ∈ cycleMembersOf cycles ∨ n ∈ passthroughOf df ∨ n ∈ anomalyOf df ∨
    n ∈ detectTemporal hasTs df ∨ n ∈ roundAmountOf df ∨ n ∈ dormancyOf hasTs df ∨
    n ∈ fanInOf df ∨ n ∈ fanOutOf df ∨ n ∈ chainsOf df ∨
    n ∈ smurfHubs hasTs df ∨ n ∈ smurfSources hasTs df

/-- Python's `int()` on a real value: truncation toward zero. -/
def pyInt (q : ℚ) : ℤ :=
  if 0 ≤ q then ⌊q⌋ else -⌊-q⌋

/-- `f"RING_{i:03d}"`: `RING_` plus the decimal index zero-padded to at
least three digits. -/
def ringId (i : ℕ) : String :=
  "RING_" ++ (if i < 10 then "00" else if i < 100 then "0" else "") ++ toString i

/-- Mean member score of a cycle: `sum(scores.get(a, 0) for a in c) / len(c)`. -/
def meanScore (scores : α → ℕ) (c : List α) : ℚ :=
  ((c.map (fun a => (scores a : ℚ))).sum) / (c.length : ℚ)

/-- One emitted fraud ring of `_build_result`. -/
structure FraudRing (α : Type) where
  ring_id : String
  member_accounts : List α
  pattern_type : String
  risk_score : ℤ
  deriving DecidableEq

/-- `_build_result` fraud rings: for the i-th recorded cycle (1-based)
`ring_id = RING_<i:03d>`, the cycle's nodes as discovered,
`pattern_type = "cycle"`, and `risk_score = min(int(avg + 10), 100)`. -/
def fraudRingsOf (cycles : List (List α)) (scores : α → ℕ) : List (FraudRing α) :=
  cycles.mapIdx (fun i c =>
    ⟨ringId (i + 1), c, "cycle", min (pyInt (meanScore scores c + 10)) 100⟩)

/-- A visualization node of `graph_data.nodes`. -/
structure GraphNode (α : Type) where
  id : α
  is_suspicious : Bool
  suspicion_score : ℕ
  is_fraud_ring_member : Bool
  ring_ids : List String
  deriving DecidableEq

/-- A visualization edge of `graph_data.edges`.  The representative
`transaction_id` / `timestamp` display strings are omitted: no claim
mentions them. -/
structure GraphEdge (α : Type) where
  source : α
  target : α
  amount : ℚ
  deriving DecidableEq

/-- `_build_result`'s priority set:
`{n : score[n] >= SUSPICIOUS_THRESHOLD = 40} | ring_members`
(a Python set, modelled as a deduplicated list). -/
def priorityOf (nodes : List α) (scores : α → ℕ) (ringMembers : List α) : List α :=
  (nodes.filter (fun n => decide (40 ≤ scores n)) ++ ringMembers).dedup

/-- `_build_result`'s display node selection: all nodes when there are at
most MAX_VIZ_NODES = 2000 of them, otherwise the priority set plus
`max(0, 2000 - len(priority))` of the remaining nodes (in an order Python
leaves to the hash set; fixed here as node order). -/
def displayOf (nodes : List α) (scores : α → ℕ) (ringMembers : List α) : List α :=
  if 2000 < nodes.length then
    priorityOf nodes scores ringMembers ++
      (nodes.filter (fun n => !decide (n ∈ priorityOf nodes scores ringMembers))).take
        (2000 - (priorityOf nodes scores ringMembers).length)
  else nodes

/-- `graph_data.nodes`: one `GraphNode` per displayed node. -/
def vizNodesOf (nodes : List α) (scores : α → ℕ) (ringMembers : List α)
    (rings : α → List String) : List (GraphNode α) :=
  (displayOf nodes scores ringMembers).map (fun n =>
    ⟨n, decide (40 ≤ scores n), scores n, decide (n ∈ ringMembers), rings n⟩)

/-- `graph_data.edges`: the graph edges whose endpoints are both displayed. -/
def vizEdgesOf (edges : List (α × α × ℚ)) (nodes : List α) (scores : α → ℕ)
    (ringMembers : List α) : List (GraphEdge α) :=
  (edges.filter (fun e =>
      decide (e.1 ∈ displayOf nodes scores ringMembers) &&
        decide (e.2.1 ∈ displayOf nodes scores ringMembers))).map
    (fun e => ⟨e.1, e.2.1, e.2.2⟩)

/-- `_parse_timestamps`, non-numeric branch: given which cells parse as
datetimes, `has_ts = notna().mean() > 0.5`. -/
def hasTsOfParsed (parsed : List Bool) : Bool :=
  decide ((1 : ℚ) / 2 < (parsed.count true : ℚ) / (parsed.length : ℚ))

/-- The flag as the spec's sentence states it: true iff at least 50 % of
the values parsed. -/
def specHasTsParsed (parsed : List Bool) : Bool :=
  decide ((1 : ℚ) / 2 ≤ (parsed.count true : ℚ) / (parsed.length : ℚ))

/-- The merchant condition as the claim states it, for comparison with
`merchantsOf`: in-degree ≥ 5; not a smurf hub; in-degree / out-degree ≥ 3
with out-degree 0 passing; outbound / inbound amount ratio < 0.5 with
inbound 0 treated as ratio 0; not a member of any recorded cycle. -/
def specMerchant (hasTs : Bool) (df : List (Row α)) (cycles : List (List α)) (n : α) : Prop :=
  5 ≤ inDeg df n ∧
    n ∉ smurfHubs hasTs df ∧
    (outDeg df n = 0 ∨ (3 : ℚ) ≤ (inDeg df n : ℚ) / (outDeg df n : ℚ)) ∧
    (if inAmt df n = 0 then (0 : ℚ) else outAmt df n / inAmt df n) < 1 / 2 ∧
    n ∉ cycleMembersOf cycles

end DetectorDefs

section ConcreteInputs

/-- C5 scenario: account 0 sends six transactions of amount 10000 to six
distinct receivers 1..6; no timestamp column (synthesised hourly,
`has_ts = false`). -/
def dfC5 : List (Row ℕ) :=
  (List.range 6).map (fun k => ⟨0, k + 1, 10000, (k : ℚ)⟩)

/-- C10 scenario: senders 1..5 each pay hub 100; hub 100 sends one
transaction into hub 200; senders 6..9 also pay 200.  All amounts 137
(not round), no timestamps. -/
def dfC10 : List (Row ℕ) :=
  [⟨1, 100, 137, 0⟩, ⟨2, 100, 137, 1⟩, ⟨3, 100, 137, 2⟩, ⟨4, 100, 137, 3⟩,
    ⟨5, 100, 137, 4⟩, ⟨100, 200, 137, 5⟩, ⟨6, 200, 137, 6⟩, ⟨7, 200, 137, 7⟩,
    ⟨8, 200, 137, 8⟩, ⟨9, 200, 137, 9⟩]

/-- C6 counterexample input: account 0 receives ten transactions at hours
0, 8, ..., 72 — ten timestamps whose span is exactly 72 hours. -/
def dfC6 : List (Row ℕ) :=
  (List.range 10).map (fun k => ⟨1, 0, 5, 8 * (k : ℚ)⟩)

/-- C9 witness, untimestamped branch: five distinct senders into hub 50,
which itself sends three transactions, all to the single receiver 60. -/
def dfC9u : List (Row ℕ) :=
  [⟨1, 50, 10, 0⟩, ⟨2, 50, 10, 0⟩, ⟨3, 50, 10, 0⟩, ⟨4, 50, 10, 0⟩, ⟨5, 50, 10, 0⟩,
    ⟨50, 60, 10, 0⟩, ⟨50, 60, 11, 0⟩, ⟨50, 60, 12, 0⟩]

/-- C9 witness, timestamped branch: five distinct senders into hub 50 at
hours 1..5 (all within 24 h); the hub forwards twice, both to receiver 60. -/
def dfC9t : List (Row ℕ) :=
  [⟨1, 50, 10, 1⟩, ⟨2, 50, 10, 2⟩, ⟨3, 50, 10, 3⟩, ⟨4, 50, 10, 4⟩, ⟨5, 50, 10, 5⟩,
    ⟨50, 60, 10, 30⟩, ⟨50, 60, 11, 31⟩]

/-- C4 / C3 witness input: six senders 1..6 pay 100 each into account 100,
which forwards 50 to each of 201 and 202 — in-degree 6, out-degree 2,
ratio 3, pass-through 100/600 < 0.5, not a smurf hub, so a merchant. -/
def dfC4w : List (Row ℕ) :=
  [⟨1, 100, 100, 0⟩, ⟨2, 100, 100, 1⟩, ⟨3, 100, 100, 2⟩, ⟨4, 100, 100, 3⟩,
    ⟨5, 100, 100, 4⟩, ⟨6, 100, 100, 5⟩, ⟨100, 201, 50, 6⟩, ⟨100, 202, 50, 7⟩]

/-- C8 witness input: X→S 1000, S→Y 999: S is a pass-through shell
(999/1000 > 0.98). -/
def dfC8w : List (Row ℕ) :=
  [⟨1, 2, 1000, 0⟩, ⟨2, 3, 999, 1⟩]

end ConcreteInputs

attribute [local semireducible] Rat.add Rat.sub Rat.mul Rat.inv

section WindowLemmas

/-- The inner while loop only moves `left` to the right. -/
theorem slideGo_ge (ts : List ℚ) (w : ℚ) (r : ℕ) :
    ∀ fuel l, l ≤ slideGo ts w r fuel l := by
  intro fuel
  induction fuel with
  | zero => intro l; simp [slideGo]
  | succ f ih =>
      intro l
      rw [slideGo]
      split
      · exact le_trans (Nat.le_succ l) (ih (l + 1))
      · exact le_refl l

/-- The inner while loop advances `left` at most `fuel` times. -/
theorem slideGo_le_add (ts : List ℚ) (w : ℚ) (r : ℕ) :
    ∀ fuel l, slideGo ts w r fuel l ≤ l + fuel := by
  intro fuel
  induction fuel with
  | zero => intro l; simp [slideGo]
  | succ f ih =>
      intro l
      rw [slideGo]
      split
      · exact le_trans (ih (l + 1)) (by omega)
      · omega

/-- When the inner while loop stops before exhausting its fuel, the loop
condition fails at the final `left`. -/
theorem slideGo_stop (ts : List ℚ) (w : ℚ) (r : ℕ) :
    ∀ fuel l, slideGo ts w r fuel l = l + fuel ∨
      ¬ w < ts.getD r 0 - ts.getD (slideGo ts w r fuel l) 0 := by
  intro fuel
  induction fuel with
  | zero => intro l; left; simp [slideGo]
  | succ f ih =>
      intro l
      rw [slideGo]
      split
      · rcases ih (l + 1) with h | h
        · left; omega
        · right; exact h
      · right; assumption

/-- If the loop condition already fails at index `i ≥ left`, the loop
never moves past `i`. -/
theorem slideGo_le_of (ts : List ℚ) (w : ℚ) (r i : ℕ)
    (hcond : ¬ w < ts.getD r 0 - ts.getD i 0) :
    ∀ fuel l, l ≤ i → slideGo ts w r fuel l ≤ i := by
  intro fuel
  induction fuel with
  | zero => intro l hl; simpa [slideGo] using hl
  | succ f ih =>
      intro l hl
      rw [slideGo]
      split
      · rcases eq_or_lt_of_le hl with hli | hli
        · subst hli; exact absurd (by assumption) hcond
        · exact ih (l + 1) hli
      · exact hl

theorem slideLeft_ge (ts : List ℚ) (w : ℚ) (r l : ℕ) : l ≤ slideLeft ts w r l :=
  slideGo_ge ts w r (r - l) l

theorem slideLeft_le (ts : List ℚ) (w : ℚ) (r l : ℕ) (h : l ≤ r) :
    slideLeft ts w r l ≤ r := by
  have := slideGo_le_add ts w r (r - l) l
  rw [slideLeft]; omega

/-- At the final `left` the window condition holds (for a nonnegative
window width): `ts[right] - ts[left] ≤ w`. -/
theorem slideLeft_diff (ts : List ℚ) (w : ℚ) (r l : ℕ) (hw : 0 ≤ w) (h : l ≤ r) :
    ts.getD r 0 - ts.getD (slideLeft ts w r l) 0 ≤ w := by
  rcases slideGo_stop ts w r (r - l) l with h1 | h1
  · rw [slideLeft, h1]
    have h2 : l + (r - l) = r := by omega
    rw [h2, sub_self]
    exact hw
  · exact not_lt.mp h1

theorem slideLeft_le_of (ts : List ℚ) (w : ℚ) (r i l : ℕ)
    (hcond : ts.getD r 0 - ts.getD i 0 ≤ w) (h : l ≤ i) :
    slideLeft ts w r l ≤ i :=
  slideGo_le_of ts w r i (not_lt.mpr hcond) (r - l) l h

/-- `getD` is monotone on a sorted list (up to its length). -/
theorem sorted_getD_mono (ts : List ℚ) (hs : ts.Sorted (· ≤ ·)) {i j : ℕ}
    (hij : i ≤ j) (hj : j < ts.length) : ts.getD i 0 ≤ ts.getD j 0 := by
  rcases eq_or_lt_of_le hij with h | h
  · subst h; exact le_refl _
  · have hi : i < ts.length := lt_trans h hj
    rw [List.getD_eq_getElem ts 0 hi, List.getD_eq_getElem ts 0 hj]
    have := List.pairwise_iff_get.mp hs ⟨i, hi⟩ ⟨j, hj⟩ h
    simpa using this

/-- Soundness of the temporal window loop: a flag yields ten consecutive
timestamps spanning at most `w`. -/
theorem tempGoF_sound (ts : List ℚ) (w : ℚ) (hw : 0 ≤ w) (hs : ts.Sorted (· ≤ ·)) :
    ∀ fuel l r, l ≤ r → tempGoF ts w fuel l r = true →
      ∃ i, i + 9 < ts.length ∧ ts.getD (i + 9) 0 - ts.getD i 0 ≤ w := by
  intro fuel
  induction fuel with
  | zero => intro l r _ h; simp [tempGoF] at h
  | succ f ih =>
      intro l r hlr h
      rw [tempGoF] at h
      by_cases hr : r < ts.length
      · rw [if_pos hr] at h
        have h1 : slideLeft ts w r l ≤ r := slideLeft_le ts w r l hlr
        by_cases hflag : 10 ≤ r - slideLeft ts w r l + 1
        · have h2 : ts.getD r 0 - ts.getD (slideLeft ts w r l) 0 ≤ w :=
            slideLeft_diff ts w r l hw hlr
          refine ⟨r - 9, by omega, ?_⟩
          have h9 : r - 9 + 9 = r := by omega
          rw [h9]
          have hmono : ts.getD (slideLeft ts w r l) 0 ≤ ts.getD (r - 9) 0 :=
            sorted_getD_mono ts hs (by omega) (by omega)
          linarith
        · rw [if_neg hflag] at h
          exact ih (slideLeft ts w r l) (r + 1) (by omega) h
      · rw [if_neg hr] at h
        exact absurd h (by simp)

/-- Completeness of the temporal window loop: ten consecutive timestamps
spanning at most `w` make the loop flag. -/
theorem tempGoF_complete (ts : List ℚ) (w : ℚ) (hs : ts.Sorted (· ≤ ·)) (i : ℕ)
    (hi : i + 9 < ts.length) (hd : ts.getD (i + 9) 0 - ts.getD i 0 ≤ w) :
    ∀ fuel l r, ts.length ≤ fuel + r → l ≤ r → l ≤ i → r ≤ i + 9 →
      tempGoF ts w fuel l r = true := by
  intro fuel
  induction fuel with
  | zero => intro l r h1 _ _ h4; omega
  | succ f ih =>
      intro l r h1 hlr hli hr9
      have hrlen : r < ts.length := lt_of_le_of_lt hr9 hi
      rw [tempGoF, if_pos hrlen]
      have hl2r : slideLeft ts w r l ≤ r := slideLeft_le ts w r l hlr
      have hl2i : slideLeft ts w r l ≤ i := by
        rcases le_or_lt r i with hri | hir
        · exact le_trans hl2r hri
        · have hmono : ts.getD r 0 ≤ ts.getD (i + 9) 0 :=
            sorted_getD_mono ts hs hr9 hi
          exact slideLeft_le_of ts w r i l (by linarith) hli
      by_cases hflag : 10 ≤ r - slideLeft ts w r l + 1
      · rw [if_pos hflag]
      · rw [if_neg hflag]
        exact ih (slideLeft ts w r l) (r + 1) (by omega) (by omega) hl2i (by omega)

end WindowLemmas

section TemporalLemmas

variable {α : Type} [DecidableEq α]

theorem sorted_tsOf (df : List (Row α)) (a : α) : (tsOf df a).Sorted (· ≤ ·) :=
  List.sorted_insertionSort _ _

/-- An account with any collected timestamp appears in the graph. -/
theorem mem_graphNodes_of_tsOf_ne_nil (df : List (Row α)) (a : α)
    (h : tsOf df a ≠ []) : a ∈ graphNodes df := by
  rw [tsOf] at h
  have hL : (((df.filter (fun r => decide (r.sender = a))).map Row.ts) ++
      ((df.filter (fun r => decide (r.receiver = a))).map Row.ts)) ≠ [] := by
    intro he
    apply h
    rw [he]
    rfl
  rcases List.exists_mem_of_ne_nil _ hL with ⟨t, ht⟩
  rw [List.mem_append] at ht
  rw [graphNodes, List.mem_dedup, List.mem_append]
  rcases ht with ht | ht
  · left
    rcases List.mem_map.mp ht with ⟨r, hr, -⟩
    rcases List.mem_filter.mp hr with ⟨hrdf, hrs⟩
    rw [decide_eq_true_eq] at hrs
    exact List.mem_map.mpr ⟨r, hrdf, hrs⟩
  · right
    rcases List.mem_map.mp ht with ⟨r, hr, -⟩
    rcases List.mem_filter.mp hr with ⟨hrdf, hrs⟩
    rw [decide_eq_true_eq] at hrs
    exact List.mem_map.mpr ⟨r, hrdf, hrs⟩

end TemporalLemmas

section ClaimC6

variable {α : Type} [DecidableEq α]

/-- C6 (amended): with timestamps present, the temporal detector flags an
account iff its ascending timestamp multiset has ten consecutive entries
whose span is at most 72 hours (a closed window: the source's loop keeps
`ts[right] - ts[left] <= window`, so a span of exactly 72 h still flags,
unlike the claim's strict "less than 72 hours"). -/
theorem c6_temporal_iff (df : List (Row α)) (a : α) :
    a ∈ detectTemporal true df ↔
      ∃ i, i + 9 < (tsOf df a).length ∧
        (tsOf df a).getD (i + 9) 0 - (tsOf df a).getD i 0 ≤ 72 := by
  rw [detectTemporal, if_pos rfl]
  constructor
  · intro h
    rcases List.mem_filter.mp h with ⟨-, hp⟩
    rw [Bool.and_eq_true] at hp
    exact tempGoF_sound (tsOf df a) 72 (by norm_num) (sorted_tsOf df a)
      (tsOf df a).length 0 0 (le_refl 0) hp.2
  · rintro ⟨i, hi, hd⟩
    refine List.mem_filter.mpr ⟨?_, ?_⟩
    · refine mem_graphNodes_of_tsOf_ne_nil df a ?_
      intro he
      rw [he] at hi
      simp at hi
    · rw [Bool.and_eq_true, decide_eq_true_eq]
      refine ⟨by omega, ?_⟩
      exact tempGoF_complete (tsOf df a) 72 (sorted_tsOf df a) i hi hd
        (tsOf df a).length 0 0 (by omega) (le_refl 0) (by omega) (by omega)

/-- C6 counterexample: ten timestamps at hours 0, 8, ..., 72 (span exactly
72 h).  The code flags the account, but no ten consecutive timestamps have
span strictly below 72 h, so the claim's right-open-window reading is
false on this input. -/
theorem c6_cex :
    0 ∈ detectTemporal true dfC6 ∧
      ¬ ∃ i, i + 9 < (tsOf dfC6 0).length ∧
          (tsOf dfC6 0).getD (i + 9) 0 - (tsOf dfC6 0).getD i 0 < 72 := by
  constructor
  · decide
  · rintro ⟨i, hi, hlt⟩
    have hL : tsOf dfC6 0 = [0, 8, 16, 24, 32, 40, 48, 56, 64, 72] := by decide
    rw [hL] at hi hlt
    have h0 : i = 0 := by
      simp only [List.length_cons, List.length_nil] at hi
      omega
    subst h0
    exact absurd hlt (by decide)

end ClaimC6

section ClaimC7

/-- C7 (amended): in the non-numeric branch, `has_timestamps` is set iff
*strictly more* than 50 % of the cells parse as datetimes (the source
compares with `> 0.5`, so exactly 50 % leaves the flag false). -/
theorem c7_hasTs_iff (parsed : List Bool) :
    hasTsOfParsed parsed = true ↔ parsed.length < 2 * parsed.count true := by
  rw [hasTsOfParsed, decide_eq_true_eq]
  rcases Nat.eq_zero_or_pos parsed.length with h0 | hpos
  · rw [h0]
    rw [List.length_eq_zero] at h0
    subst h0
    norm_num
  · have hq : (0 : ℚ) < (parsed.length : ℚ) := by exact_mod_cast hpos
    rw [lt_div_iff₀ hq]
    constructor
    · intro h
      have h2 : (parsed.length : ℚ) < 2 * (parsed.count true : ℚ) := by linarith
      exact_mod_cast h2
    · intro h
      have h2 : (parsed.length : ℚ) < 2 * (parsed.count true : ℚ) := by exact_mod_cast h
      linarith

/-- C7 counterexample: two cells, one parses — exactly 50 %.  The spec's
`≥ 50 %` reading sets the flag, the code (`> 0.5`) does not. -/
theorem c7_cex :
    specHasTsParsed [true, false] = true ∧ hasTsOfParsed [true, false] = false := by
  constructor
  · decide
  · decide

end ClaimC7

section SmurfLemmas

variable {α : Type} [DecidableEq α]

/-- Fewer distinct elements in a narrower slice: the window
`[i, j]` is contained in `[l2, j]` whenever `l2 ≤ i`. -/
theorem dedup_length_le_slice (ss : List α) (l2 i j : ℕ)
    (h : l2 ≤ i) (hij : i ≤ j) :
    ((ss.drop i).take (j + 1 - i)).dedup.length ≤
      ((ss.drop l2).take (j + 1 - l2)).dedup.length := by
  have hsub : ((ss.drop i).take (j + 1 - i)).Sublist ((ss.drop l2).take (j + 1 - l2)) := by
    have h1 : ss.drop i = (ss.drop l2).drop (i - l2) := by
      rw [List.drop_drop]
      congr 1
      omega
    have h2 : j + 1 - l2 = (i - l2) + (j + 1 - i) := by omega
    rw [h1, h2, List.take_add]
    exact List.sublist_append_right _ _
  have hss : ((ss.drop i).take (j + 1 - i)).toFinset ⊆
      ((ss.drop l2).take (j + 1 - l2)).toFinset := by
    intro x hx
    rw [List.mem_toFinset] at hx ⊢
    exact hsub.subset hx
  have hcard := Finset.card_le_card hss
  rw [List.card_toFinset, List.card_toFinset] at hcard
  exact hcard

/-- Completeness of the smurfing window loop: if the slice `[i, j]` of the
time-sorted inbound senders spans at most 24 h and holds ≥ 5 distinct
senders, the loop flags. -/
theorem smurfGoF_complete (ts : List ℚ) (ss : List α) (hs : ts.Sorted (· ≤ ·))
    (i j : ℕ) (hij : i ≤ j) (hj : j < ts.length)
    (hd : ts.getD j 0 - ts.getD i 0 ≤ 24)
    (hcount : 5 ≤ ((ss.drop i).take (j + 1 - i)).dedup.length) :
    ∀ fuel l r, ts.length ≤ fuel + r → l ≤ r → l ≤ i → r ≤ j →
      smurfGoF ts ss fuel l r = true := by
  intro fuel
  induction fuel with
  | zero => intro l r h1 _ _ h4; omega
  | succ f ih =>
      intro l r h1 hlr hli hrj
      have hrlen : r < ts.length := lt_of_le_of_lt hrj hj
      rw [smurfGoF, if_pos hrlen]
      have hl2r : slideLeft ts 24 r l ≤ r := slideLeft_le ts 24 r l hlr
      have hl2i : slideLeft ts 24 r l ≤ i := by
        rcases le_or_lt r i with hri | hir
        · exact le_trans hl2r hri
        · have hmono : ts.getD r 0 ≤ ts.getD j 0 := sorted_getD_mono ts hs hrj hj
          exact slideLeft_le_of ts 24 r i l (by linarith) hli
      by_cases hflag : 5 ≤ (((ss.drop (slideLeft ts 24 r l)).take
          (r + 1 - slideLeft ts 24 r l)).dedup).length
      · rw [if_pos hflag]
      · rw [if_neg hflag]
        have hrj2 : r < j := by
          rcases eq_or_lt_of_le hrj with he | hlt
          · exfalso
            apply hflag
            subst he
            calc 5 ≤ ((ss.drop i).take (r + 1 - i)).dedup.length := hcount
              _ ≤ _ := dedup_length_le_slice ss (slideLeft ts 24 r l) i r hl2i hij
          · exact hlt
        exact ih (slideLeft ts 24 r l) (r + 1) (by omega) (by omega) hl2i (by omega)

/-- A list whose elements are pairwise equal and which has no duplicates
has at most one element. -/
theorem length_le_one_of_nodup (l : List α) (hnd : l.Nodup)
    (h : ∀ x ∈ l, ∀ y ∈ l, x = y) : l.length ≤ 1 := by
  cases l with
  | nil => simp
  | cons x xs =>
      cases xs with
      | nil => simp
      | cons y ys =>
          exfalso
          have hxy : x = y := h x (by simp) y (by simp)
          rw [List.nodup_cons] at hnd
          exact hnd.1 (by simp [hxy])

/-- The graph in-degree counts exactly the distinct raw-row senders into a
node (distinct predecessors). -/
theorem inDeg_eq_uniqueSenders (df : List (Row α)) (n : α) :
    inDeg df n = uniqueSenders df n := by
  have hAnd : (((edgePairs df).filter (fun p => decide (p.2 = n)))).Nodup :=
    (List.nodup_dedup _).filter _
  have hsnd : ∀ p ∈ (edgePairs df).filter (fun p => decide (p.2 = n)), p.2 = n := by
    intro p hp
    have h2 := (List.mem_filter.mp hp).2
    rwa [decide_eq_true_eq] at h2
  have hmapnd : ((((edgePairs df).filter (fun p => decide (p.2 = n))).map Prod.fst)).Nodup := by
    refine List.Nodup.map_on ?_ hAnd
    intro p hp q hq hfst
    have hps := hsnd p hp
    have hqs := hsnd q hq
    exact Prod.ext hfst (by rw [hps, hqs])
  have hset : ((((edgePairs df).filter (fun p => decide (p.2 = n))).map Prod.fst)).toFinset =
      ((inboundRows df n).map Row.sender).toFinset := by
    ext s
    simp only [List.mem_toFinset, List.mem_map, List.mem_filter, edgePairs, inboundRows,
      List.mem_dedup, decide_eq_true_eq]
    constructor
    · rintro ⟨p, ⟨⟨r, hr, hrp⟩, hp2⟩, hp1⟩
      refine ⟨r, ⟨hr, ?_⟩, ?_⟩
      · rw [← hp2, ← hrp]
      · rw [← hp1, ← hrp]
    · rintro ⟨r, ⟨hr, hrecv⟩, hsend⟩
      exact ⟨(r.sender, r.receiver), ⟨⟨r, hr, rfl⟩, hrecv⟩, hsend⟩
  have h1 : inDeg df n =
      ((((edgePairs df).filter (fun p => decide (p.2 = n))).map Prod.fst)).length := by
    rw [inDeg, List.length_map]
  have h2 := List.toFinset_card_of_nodup hmapnd
  have h3 := List.card_toFinset ((inboundRows df n).map Row.sender)
  rw [h1, ← h2, hset, h3, uniqueSenders]

/-- If every outgoing transaction of `n` goes to one and the same
receiver, the aggregated out-degree of `n` is at most 1. -/
theorem outDeg_le_one (df : List (Row α)) (n : α)
    (hout : ∀ r ∈ df, r.sender = n → ∀ s ∈ df, s.sender = n → r.receiver = s.receiver) :
    outDeg df n ≤ 1 := by
  rw [outDeg]
  refine length_le_one_of_nodup _ ((List.nodup_dedup _).filter _) ?_
  intro p hp q hq
  rcases List.mem_filter.mp hp with ⟨hpe, hp1⟩
  rcases List.mem_filter.mp hq with ⟨hqe, hq1⟩
  rw [decide_eq_true_eq] at hp1 hq1
  rw [edgePairs, List.mem_dedup, List.mem_map] at hpe hqe
  rcases hpe with ⟨r, hr, hrp⟩
  rcases hqe with ⟨s, hsd, hsq⟩
  have hrs : r.sender = n := by rw [← hp1, ← hrp]
  have hss : s.sender = n := by rw [← hq1, ← hsq]
  have := hout r hr hrs s hsd hss
  rw [← hrp, ← hsq]
  rw [Prod.ext_iff]
  exact ⟨by rw [hrs, hss], this⟩

/-- The timestamps of `sortedInbound` are ascending. -/
theorem sorted_sortedInbound_ts (df : List (Row α)) (n : α) :
    ((sortedInbound df n).map Row.ts).Sorted (· ≤ ·) := by
  have h := List.sorted_insertionSort (fun (a b : Row α) => a.ts ≤ b.ts) (inboundRows df n)
  exact List.Pairwise.map Row.ts (fun a b hab => hab) h

/-- A node with an inbound row is a node of the graph. -/
theorem mem_graphNodes_of_inboundRows_ne_nil (df : List (Row α)) (n : α)
    (h : inboundRows df n ≠ []) : n ∈ graphNodes df := by
  rcases List.exists_mem_of_ne_nil _ h with ⟨r, hr⟩
  rcases List.mem_filter.mp hr with ⟨hrdf, hrecv⟩
  rw [decide_eq_true_eq] at hrecv
  rw [graphNodes, List.mem_dedup, List.mem_append]
  right
  exact List.mem_map.mpr ⟨r, hrdf, hrecv⟩

end SmurfLemmas

section ClaimC9

variable {α : Type} [DecidableEq α]

/-- C9: the smurfing out-degree gate counts distinct successors of the
aggregated graph, not transactions.  A node with at least 5 distinct
senders (within one 24-hour window of its time-sorted inbound rows when
timestamps exist, or overall when they do not) is flagged as a smurf hub
no matter how many outgoing transactions it has, provided they all go to
a single receiver (so its aggregated out-degree is at most 1). -/
theorem c9_smurf_outdeg (hasTs : Bool) (df : List (Row α)) (n : α)
    (hout : ∀ r ∈ df, r.sender = n → ∀ s ∈ df, s.sender = n → r.receiver = s.receiver)
    (hinT : hasTs = true →
      ∃ i j, i ≤ j ∧ j < (sortedInbound df n).length ∧
        ((sortedInbound df n).map Row.ts).getD j 0 -
            ((sortedInbound df n).map Row.ts).getD i 0 ≤ 24 ∧
        5 ≤ ((((sortedInbound df n).map Row.sender).drop i).take (j + 1 - i)).dedup.length)
    (hinF : hasTs = false → 5 ≤ uniqueSenders df n) :
    n ∈ smurfHubs hasTs df := by
  cases hasTs
  · have h5 := hinF rfl
    have hne : inboundRows df n ≠ [] := by
      intro he
      rw [uniqueSenders, he] at h5
      simp at h5
    rw [smurfHubs, if_neg (by simp)]
    refine List.mem_filter.mpr ⟨mem_graphNodes_of_inboundRows_ne_nil df n hne, ?_⟩
    simp only [Bool.and_eq_true, decide_eq_true_eq]
    refine ⟨⟨?_, outDeg_le_one df n hout⟩, h5⟩
    rw [inDeg_eq_uniqueSenders]
    exact h5
  · rcases hinT rfl with ⟨i, j, hij, hjlen, hd, hcount⟩
    have hperm : (sortedInbound df n).Perm (inboundRows df n) :=
      List.perm_insertionSort _ _
    have hlen_eq : (sortedInbound df n).length = (inboundRows df n).length :=
      hperm.length_eq
    have hslice_le :
        ((((sortedInbound df n).map Row.sender).drop i).take (j + 1 - i)).dedup.length ≤
          (sortedInbound df n).length := by
      have e1 := (List.dedup_sublist
        ((((sortedInbound df n).map Row.sender).drop i).take (j + 1 - i))).length_le
      have e2 := ((List.take_sublist (j + 1 - i)
        (((sortedInbound df n).map Row.sender).drop i)).trans
          (List.drop_sublist i ((sortedInbound df n).map Row.sender))).length_le
      have e3 : ((sortedInbound df n).map Row.sender).length = (sortedInbound df n).length :=
        List.length_map _ _
      omega
    have hlen5 : 5 ≤ (inboundRows df n).length := by omega
    have hsl_perm : (((sortedInbound df n).map Row.sender)).Perm
        ((inboundRows df n).map Row.sender) := hperm.map _
    have hufin : (((sortedInbound df n).map Row.sender)).toFinset =
        ((inboundRows df n).map Row.sender).toFinset :=
      List.toFinset_eq_of_perm _ _ hsl_perm
    have huniq : 5 ≤ uniqueSenders df n := by
      have hsub : ((((sortedInbound df n).map Row.sender).drop i).take (j + 1 - i)).Sublist
          ((sortedInbound df n).map Row.sender) :=
        (List.take_sublist _ _).trans (List.drop_sublist _ _)
      have h1 : ((((sortedInbound df n).map Row.sender).drop i).take (j + 1 - i)).toFinset ⊆
          (((sortedInbound df n).map Row.sender)).toFinset := by
        intro x hx
        rw [List.mem_toFinset] at hx ⊢
        exact hsub.subset hx
      have hcard := Finset.card_le_card h1
      rw [hufin] at hcard
      rw [List.card_toFinset, List.card_toFinset] at hcard
      rw [uniqueSenders]
      omega
    have hdeg : 5 ≤ inDeg df n := by
      rw [inDeg_eq_uniqueSenders]
      exact huniq
    have hne : inboundRows df n ≠ [] := by
      intro he
      rw [he] at hlen5
      simp at hlen5
    rw [smurfHubs, if_pos rfl]
    refine List.mem_filter.mpr ⟨mem_graphNodes_of_inboundRows_ne_nil df n hne, ?_⟩
    simp only [Bool.and_eq_true, decide_eq_true_eq]
    refine ⟨⟨⟨hdeg, outDeg_le_one df n hout⟩, hlen5⟩, ?_⟩
    rw [smurfFlag]
    refine smurfGoF_complete ((sortedInbound df n).map Row.ts)
      ((sortedInbound df n).map Row.sender) (sorted_sortedInbound_ts df n) i j hij ?_ hd hcount
      ((sortedInbound df n).map Row.ts).length 0 0 (by omega) (le_refl 0) (by omega) (by omega)
    rw [List.length_map]
    exact hjlen

end ClaimC9

/-- C9 witness: both branches at concrete inputs.  `dfC9u`: hub 50 has five
distinct senders and three outgoing transactions, all to receiver 60.
`dfC9t`: hub 50 has five distinct senders within hours 1..5 and two
outgoing transactions, both to receiver 60. -/
theorem c9_witness : 50 ∈ smurfHubs false dfC9u ∧ 50 ∈ smurfHubs true dfC9t := by
  constructor
  · exact c9_smurf_outdeg false dfC9u 50 (by decide) (fun h => nomatch h) (fun _ => by decide)
  · refine c9_smurf_outdeg true dfC9t 50 (by decide) (fun _ => ?_) (fun h => nomatch h)
    exact ⟨0, 4, by decide, by decide, by decide, by decide⟩

section ClaimC8

variable {α : Type} [DecidableEq α]

/-- C8: the merchant set and the passthrough set are disjoint — a
passthrough node has inbound amount > 0 and out/in ratio > 0.98, while a
merchant needs that same precomputed ratio below 0.5. -/
theorem c8_merchant_passthrough_disjoint (hasTs : Bool) (df : List (Row α))
    (cycles : List (List α)) (n : α) (hp : n ∈ passthroughOf df) :
    n ∉ merchantsOf hasTs df cycles := by
  intro hm
  rcases List.mem_filter.mp hp with ⟨-, hp2⟩
  rcases List.mem_filter.mp hm with ⟨-, hm2⟩
  simp only [Bool.and_eq_true, decide_eq_true_eq] at hp2 hm2
  have hin : 0 < inAmt df n := hp2.1
  have hratio : 98 / 100 < outAmt df n / inAmt df n := hp2.2
  have hpt : (if 0 < inAmt df n then outAmt df n / inAmt df n else 0) < 1 / 2 :=
    hm2.1.2
  rw [if_pos hin] at hpt
  linarith

/-- C8 witness: in `dfC8w`, node 2 (the shell S) is a passthrough
(999/1000 > 0.98), hence not a merchant. -/
theorem c8_witness : 2 ∉ merchantsOf false dfC8w [] :=
  c8_merchant_passthrough_disjoint false dfC8w [] 2 (by decide)

end ClaimC8

section ClaimC4

variable {α : Type} [DecidableEq α]

/-- C4: for nonnegative amounts (the spec's data model), a graph node is a
merchant exactly under the claim's five conditions; the only textual gap —
the code guards the pass-through ratio with `total_in > 0` while the claim
says "inbound 0 treated as ratio 0" — vanishes because a nonnegative
inbound total is zero iff it is not positive. -/
theorem c4_merchant_iff (hasTs : Bool) (df : List (Row α)) (cycles : List (List α))
    (n : α) (hamt : ∀ r ∈ df, 0 ≤ r.amount) (hn : n ∈ graphNodes df) :
    n ∈ merchantsOf hasTs df cycles ↔ specMerchant hasTs df cycles n := by
  have h0 : 0 ≤ inAmt df n := by
    apply List.sum_nonneg
    intro x hx
    rcases List.mem_map.mp hx with ⟨r, hr, hrx⟩
    rw [← hrx]
    exact hamt r (List.mem_filter.mp hr).1
  have hdiv : (if 0 < inAmt df n then outAmt df n / inAmt df n else 0) =
      (if inAmt df n = 0 then (0 : ℚ) else outAmt df n / inAmt df n) := by
    rcases eq_or_lt_of_le h0 with he | hlt
    · rw [if_neg (by rw [← he]; exact lt_irrefl 0), if_pos he.symm]
    · rw [if_pos hlt, if_neg (by exact ne_of_gt hlt)]
  rw [merchantsOf, specMerchant, List.mem_filter]
  simp only [hn, true_and, Bool.and_eq_true, decide_eq_true_eq, Bool.or_eq_true,
    Bool.not_eq_true', decide_eq_false_iff_not]
  rw [hdiv]
  constructor
  · rintro ⟨⟨⟨⟨hd5, hhub⟩, hr3⟩, hpt⟩, hcyc⟩
    exact ⟨hd5, hhub, hr3, hpt, hcyc⟩
  · rintro ⟨hd5, hhub, hr3, hpt, hcyc⟩
    exact ⟨⟨⟨⟨hd5, hhub⟩, hr3⟩, hpt⟩, hcyc⟩

/-- C4 witness: in `dfC4w`, account 100 (six distinct senders, two distinct
receivers, pass-through 100/600) satisfies both sides of the equivalence. -/
theorem c4_witness :
    100 ∈ merchantsOf false dfC4w [] ↔ specMerchant false dfC4w [] 100 :=
  c4_merchant_iff false dfC4w [] 100 (by decide) (by decide)

end ClaimC4

section ClaimC3

variable {α : Type} [DecidableEq α]

/-- C3: a graph node scores zero iff it is a merchant (whose pattern list
is then exactly `["legitimate_merchant"]`) or belongs to no detector set:
every detector contributes a strictly positive increment, so a non-merchant
with any membership scores above zero. -/
theorem c3_score_zero_iff (hasTs : Bool) (df : List (Row α)) (cycles : List (List α))
    (n : α) (hn : n ∈ graphNodes df) :
    (scoreOf hasTs df cycles n = 0 ↔
        (n ∈ merchantsOf hasTs df cycles ∨ ¬ matchesAnyDetector hasTs df cycles n)) ∧
      (n ∈ merchantsOf hasTs df cycles →
        patternsOf hasTs df cycles n = ["legitimate_merchant"]) := by
  constructor
  · by_cases hm : n ∈ merchantsOf hasTs df cycles
    · simp [scoreOf, hm]
    · rw [scoreOf, if_neg hm]
      rw [Nat.min_eq_zero_iff]
      constructor
      · intro h
        right
        rcases h with h | h
        · rw [rawScore] at h
          simp only [Nat.add_eq_zero, ite_eq_right_iff] at h
          obtain ⟨⟨⟨⟨⟨⟨⟨⟨⟨⟨h1, h2⟩, h3⟩, h4⟩, h5⟩, h6⟩, h7⟩, h8⟩, h9⟩, h10⟩, h11⟩ := h
          rw [matchesAnyDetector]
          push_neg
          exact ⟨fun hx => absurd (h1 hx) (by decide), fun hx => absurd (h2 hx) (by decide),
            fun hx => absurd (h3 hx) (by decide), fun hx => absurd (h4 hx) (by decide),
            fun hx => absurd (h5 hx) (by decide), fun hx => absurd (h6 hx) (by decide),
            fun hx => absurd (h7 hx) (by decide), fun hx => absurd (h8 hx) (by decide),
            fun hx => absurd (h9 hx) (by decide), fun hx => absurd (h10 hx) (by decide),
            fun hx => absurd (h11 hx) (by decide)⟩
        · exact absurd h (by decide)
      · intro h
        rcases h with h | h
        · exact absurd h hm
        · left
          rw [rawScore]
          rw [matchesAnyDetector] at h
          push_neg at h
          rcases h with ⟨h1, h2, h3, h4, h5, h6, h7, h8, h9, h10, h11⟩
          simp [h1, h2, h3, h4, h5, h6, h7, h8, h9, h10, h11]
  · intro hm
    rw [patternsOf, if_pos hm]

/-- C3 witness: the characterisation applied to the merchant 100 of
`dfC4w` (no timestamps, no recorded cycles). -/
theorem c3_witness :
    scoreOf false dfC4w [] 100 = 0 ↔
      (100 ∈ merchantsOf false dfC4w [] ∨ ¬ matchesAnyDetector false dfC4w [] 100) :=
  (c3_score_zero_iff false dfC4w [] 100 (by decide)).1

end ClaimC3

section ClaimC2

variable {α : Type} [DecidableEq α]

set_option maxHeartbeats 1000000 in
/-- C2 (amended): the i-th fraud ring (1-based) carries
`ring_id = RING_<i:03d>`, the cycle's nodes as discovered,
`pattern_type = "cycle"` and
`risk_score = min(100, floor(mean_member_score) + 10)` — Python's
`int(avg + 10)` truncates the mean instead of rounding it to the nearest
integer.  (The `c ≠ []` hypothesis records that recorded cycles are
nonempty — `_detect_cycles` only keeps cycles of length ≥ 3 — since the
source would divide by zero otherwise.) -/
theorem c2_ring_fields (cycles : List (List α)) (scores : α → ℕ)
    (hne : ∀ c ∈ cycles, c ≠ []) (i : ℕ) (hi : i < cycles.length) :
    (fraudRingsOf cycles scores).getD i ⟨"", [], "", 0⟩ =
      ⟨ringId (i + 1), cycles.getD i [], "cycle",
        min 100 (⌊meanScore scores (cycles.getD i [])⌋ + 10)⟩ := by
  have hlen : i < (fraudRingsOf cycles scores).length := by
    rw [fraudRingsOf, List.length_mapIdx]
    exact hi
  rw [List.getD_eq_getElem _ _ hlen, List.getD_eq_getElem _ _ hi]
  simp only [fraudRingsOf, List.getElem_mapIdx]
  simp only [FraudRing.mk.injEq, eq_self_iff_true, true_and]
  have hm0 : 0 ≤ meanScore scores cycles[i] := by
    rw [meanScore]
    apply div_nonneg
    · apply List.sum_nonneg
      intro x hx
      rcases List.mem_map.mp hx with ⟨a, -, hax⟩
      rw [← hax]
      exact Nat.cast_nonneg _
    · exact Nat.cast_nonneg _
  rw [pyInt, if_pos (by linarith)]
  rw [Int.floor_add_ofNat]
  rw [min_comm]

/-- C2 counterexample: the 3-cycle with member scores 50, 60, 60 has mean
170/3 ≈ 56.67; the code emits `int(56.67 + 10) = 66`, while the claim's
arithmetic rounding gives `round(56.67) + 10 = 67`. -/
theorem c2_cex :
    (fraudRingsOf [[0, 1, 2]] (fun n : ℕ => if n = 0 then 50 else 60)).map
        (fun r => r.risk_score) = [66] ∧
      min 100 (round (meanScore (fun n : ℕ => if n = 0 then 50 else 60) [0, 1, 2]) + 10) =
        67 := by
  constructor
  · decide
  · decide

/-- C2 witness: the amended statement at a single 3-cycle with constant
member score 50. -/
theorem c2_witness :
    (fraudRingsOf [[0, 1, 2]] (fun _ : ℕ => 50)).getD 0 ⟨"", [], "", 0⟩ =
      ⟨ringId 1, [0, 1, 2], "cycle",
        min 100 (⌊meanScore (fun _ : ℕ => 50) [0, 1, 2]⌋ + 10)⟩ :=
  c2_ring_fields [[0, 1, 2]] (fun _ => 50) (by decide) 0 (by decide)

end ClaimC2

section ClaimC1

variable {α : Type} [DecidableEq α]

/-- C1 (amended): `graph_data.nodes` has size at most
`max(MAX_VIZ_NODES, len(priority))` — so at most 2000 whenever the
priority set fits the cap, but the priority set itself is never trimmed —
and every emitted edge has both endpoints among the displayed node ids. -/
theorem c1_viz_bounds (nodes : List α) (scores : α → ℕ) (ringMembers : List α)
    (rings : α → List String) (edges : List (α × α × ℚ)) :
    (vizNodesOf nodes scores ringMembers rings).length ≤
        max 2000 (priorityOf nodes scores ringMembers).length ∧
      ∀ e ∈ vizEdgesOf edges nodes scores ringMembers,
        e.source ∈ (vizNodesOf nodes scores ringMembers rings).map GraphNode.id ∧
          e.target ∈ (vizNodesOf nodes scores ringMembers rings).map GraphNode.id := by
  have hids : (vizNodesOf nodes scores ringMembers rings).map GraphNode.id =
      displayOf nodes scores ringMembers := by
    rw [vizNodesOf, List.map_map]
    exact List.map_id _
  constructor
  · rw [vizNodesOf, List.length_map, displayOf]
    split
    · rw [List.length_append, List.length_take]
      omega
    · rename_i hle
      omega
  · intro e he
    rw [vizEdgesOf] at he
    rcases List.mem_map.mp he with ⟨x, hx, hxe⟩
    rcases List.mem_filter.mp hx with ⟨-, hx2⟩
    rw [Bool.and_eq_true, decide_eq_true_eq, decide_eq_true_eq] at hx2
    rw [hids]
    rw [← hxe]
    exact ⟨hx2.1, hx2.2⟩

/-- C1 counterexample: a reachable result-builder state with 2001 nodes
all scoring exactly the suspicious threshold 40 (e.g. disjoint smurfing
clusters make every account score 40).  The whole node set is priority,
`slots = max(0, 2000 - 2001) = 0`, and the display keeps all 2001 nodes —
`graph_data.nodes` exceeds MAX_VIZ_NODES = 2000. -/
theorem c1_cex :
    2000 < (vizNodesOf (List.range 2001) (fun _ : ℕ => 40) [] (fun _ => [])).length := by
  have hpri : priorityOf (List.range 2001) (fun _ : ℕ => 40) [] = List.range 2001 := by
    rw [priorityOf, List.append_nil]
    rw [List.filter_eq_self.mpr (fun a _ => by simp)]
    exact List.dedup_eq_self.mpr (List.nodup_range 2001)
  have hcond : 2000 < (List.range 2001).length := by
    rw [List.length_range]
    omega
  rw [vizNodesOf, List.length_map, displayOf, if_pos hcond, hpri]
  have hrest : (List.range 2001).filter (fun n => !decide (n ∈ List.range 2001)) = [] := by
    rw [List.filter_eq_nil]
    intro a ha
    simp [ha]
  rw [hrest]
  simp [List.length_range]

/-- C1 witness: the endpoint property applied to the one-edge graph on
nodes 0 and 1 (display = all nodes, edge kept). -/
theorem c1_witness :
    (0 : ℕ) ∈ (vizNodesOf [0, 1] (fun _ : ℕ => 0) [] (fun _ => [])).map GraphNode.id ∧
      (1 : ℕ) ∈ (vizNodesOf [0, 1] (fun _ : ℕ => 0) [] (fun _ => [])).map GraphNode.id :=
  (c1_viz_bounds [0, 1] (fun _ => 0) [] (fun _ => []) [(0, 1, 5)]).2 ⟨0, 1, 5⟩ (by decide)

end ClaimC1

section ClaimC5

/-- C5 counterexample: on the claimed input (one account sends six
transactions of 10000 to six distinct receivers) the account is *not* in
`fan_out` — its out-degree 6 is below FAN_THRESHOLD = 10 — and its score
is 15 (round-amount only), not 25. -/
theorem c5_cex : 0 ∉ fanOutOf dfC5 ∧ scoreOf false dfC5 [] 0 = 15 := by
  constructor
  · decide
  · decide

/-- C5 (amended): account 0 lands in `round_amount` but not in `fan_out`
(out-degree 6 < 10), scores 15 from `round_amount_structuring` alone,
stays below the suspicious threshold 40, and its pattern list is exactly
`["round_amount_structuring"]`. -/
theorem c5_round_amount_scenario :
    0 ∈ roundAmountOf dfC5 ∧ 0 ∉ fanOutOf dfC5 ∧ scoreOf false dfC5 [] 0 = 15 ∧
      scoreOf false dfC5 [] 0 < 40 ∧
      patternsOf false dfC5 [] 0 = ["round_amount_structuring"] := by
  refine ⟨by decide, by decide, by decide, by decide, by decide⟩

end ClaimC5

section ClaimC10

/-- C10: in `dfC10`, hub 100 receives from five distinct senders (so is a
smurf hub) and itself sends one transaction into hub 200, whose sender set
it joins (so it is also a smurf source).  `_score` adds SMURF_SCORE = 40
twice: smurfing alone yields 80, and both labels appear, in order. -/
theorem c10_double_smurf :
    100 ∈ smurfHubs false dfC10 ∧ 100 ∈ smurfSources false dfC10 ∧
      scoreOf false dfC10 [] 100 = 80 ∧
      patternsOf false dfC10 [] 100 = ["smurfing_hub", "smurfing_source"] := by
  refine ⟨by decide, by decide, by decide, by decide⟩

end ClaimC10
